import Mathlib

/-!
Verification development for the TrustChain backend (Algorand proof-of-authenticity
service).  The definitions below are a shallow embedding of the JavaScript source:

* `trustchain/backend/algorand.js` — note codec (`buildTrustChainNote`, `decodeNote`,
  `parseNotePayload`, `parseHashFromTransaction`), `computeSHA256`,
  `fetchIssuerAccountState`;
* `trustchain/backend/routes.js` — the `/api/proofs/issue` and `/api/proofs/verify`
  handlers, `buildIssuerStatus`, `deriveProofsFromTransactions`.

External collaborators (the `algosdk` ledger client, Node's `crypto` digest, and the
built-in `JSON.parse` / `JSON.stringify` / `Buffer` codecs) are modelled explicitly:
the digest is a parameter, JSON values are the inductive `Json` with an executable
parser and printer faithful to JavaScript semantics (object key overwrite, string
escapes), and `Buffer.toString("utf8")` is a UTF-8 decoder with U+FFFD replacement
for invalid bytes, which is Node's behaviour (it never throws on bad bytes).
-/

/-- JSON values as produced by `JSON.parse` / consumed by `JSON.stringify`.
Numbers are modelled as integers: every numeric field the backend writes into a
note (`fileSize`) is an integer, so the integer fragment suffices. -/
inductive Json where
  | null
  | bool (b : Bool)
  | num (n : Int)
  | str (s : String)
  | arr (xs : List Json)
  | obj (fields : List (String × Json))

/-- Property write with JavaScript object semantics: overwriting an existing key
keeps its position, a new key is appended (the order `JSON.stringify` observes). -/
def objInsert (fs : List (String × Json)) (k : String) (v : Json) : List (String × Json) :=
  match fs with
  | [] => [(k, v)]
  | (k', v') :: rest => if k' = k then (k', v) :: rest else (k', v') :: objInsert rest k v

/-- Property read (`obj.k`): the value stored at key `k`, if any. -/
def jsonGet (j : Json) (k : String) : Option Json :=
  match j with
  | Json.obj fs => (fs.find? (fun p => p.1 = k)).map (fun p => p.2)
  | _ => none

/-- JavaScript truthiness of a JSON value (`null`, `false`, `0`, `""` are falsy). -/
def jsTruthy (j : Json) : Bool :=
  match j with
  | Json.null => false
  | Json.bool b => b
  | Json.num n => n != 0
  | Json.str s => s != ""
  | Json.arr _ => true
  | Json.obj _ => true

/-- `x || d` on an optional JSON value (`undefined` and falsy values fall back). -/
def jsOr (v : Option Json) (d : Json) : Json :=
  match v with
  | some j => if jsTruthy j then j else d
  | none => d

/-- ASCII lower-casing of one character, as `String.prototype.toLowerCase`
acts on the characters relevant here. -/
def charToLower (c : Char) : Char :=
  if 65 ≤ c.toNat ∧ c.toNat ≤ 90 then Char.ofNat (c.toNat + 32) else c

/-- ASCII upper-casing of one character (`String.prototype.toUpperCase`). -/
def charToUpper (c : Char) : Char :=
  if 97 ≤ c.toNat ∧ c.toNat ≤ 122 then Char.ofNat (c.toNat - 32) else c

/-- `s.toLowerCase()` on the ASCII range. -/
def strToLower (s : String) : String := ⟨s.data.map charToLower⟩

/-- `s.toUpperCase()` on the ASCII range. -/
def strToUpper (s : String) : String := ⟨s.data.map charToUpper⟩

/-- Whitespace stripped by `String.prototype.trim`. -/
def isJsWs (c : Char) : Bool :=
  c = ' ' || c = '\t' || c = '\n' || c = '\r' || c = '\x0b' || c = '\x0c'

/-- `s.trim()`: drop leading and trailing whitespace. -/
def jsTrim (s : String) : String :=
  ⟨((s.data.dropWhile isJsWs).reverse.dropWhile isJsWs).reverse⟩

/-- Hexadecimal digit characters as emitted by Node's `digest("hex")` (lowercase). -/
def hexDigitChar (n : Nat) : Char :=
  match n with
  | 0 => '0' | 1 => '1' | 2 => '2' | 3 => '3' | 4 => '4' | 5 => '5' | 6 => '6' | 7 => '7'
  | 8 => '8' | 9 => '9' | 10 => 'a' | 11 => 'b' | 12 => 'c' | 13 => 'd' | 14 => 'e'
  | 15 => 'f' | _ => '0'

/-- Two lowercase hex characters for one byte. -/
def byteToHex (b : Nat) : List Char := [hexDigitChar (b % 256 / 16), hexDigitChar (b % 16)]

/-- Hex rendering of a byte sequence, as `Hash.digest("hex")` renders its output. -/
def bytesToHex (bs : List Nat) : String := ⟨(bs.map byteToHex).flatten⟩

/-- `computeSHA256` from `algorand.js`: the hex digest of the file buffer.  The
SHA-256 core itself lives in Node's `crypto` (an external collaborator), so it is
a parameter `digest`; the repository's own code is the hex rendering. -/
def computeSHA256 (digest : List Nat → List Nat) (fileBuffer : List Nat) : String :=
  bytesToHex (digest fileBuffer)

/-- UTF-8 bytes of one character (scalar values only, as `Char` guarantees). -/
def charUtf8 (c : Char) : List Nat :=
  if c.toNat < 128 then [c.toNat]
  else if c.toNat < 2048 then [192 + c.toNat / 64, 128 + c.toNat % 64]
  else if c.toNat < 65536 then
    [224 + c.toNat / 4096, 128 + c.toNat / 64 % 64, 128 + c.toNat % 64]
  else
    [240 + c.toNat / 262144, 128 + c.toNat / 4096 % 64, 128 + c.toNat / 64 % 64,
      128 + c.toNat % 64]

/-- UTF-8 encoding of a string (`Buffer.from(text, "utf8")`). -/
def utf8Encode (s : String) : List Nat := (s.data.map charUtf8).flatten

/-- UTF-8 decoding with U+FFFD replacement for invalid bytes, the behaviour of
Node's `buffer.toString("utf8")`: it never throws; malformed input produces
replacement characters.  (On malformed multi-byte garbage this model consumes one
byte per replacement where Node consumes a maximal subpart; the inputs proved
about below do not fall in that corner.) -/
def utf8DecodeGo (fuel : Nat) (bs : List Nat) : List Char :=
  match fuel, bs with
  | 0, _ => []
  | _, [] => []
  | fuel + 1, b :: rest =>
    if b < 128 then Char.ofNat b :: utf8DecodeGo fuel rest
    else if 194 ≤ b ∧ b ≤ 223 then
      match rest with
      | b2 :: rest2 =>
        if 128 ≤ b2 ∧ b2 ≤ 191 then
          Char.ofNat ((b - 192) * 64 + (b2 - 128)) :: utf8DecodeGo fuel rest2
        else '�' :: utf8DecodeGo fuel (b2 :: rest2)
      | [] => ['�']
    else if 224 ≤ b ∧ b ≤ 239 then
      match rest with
      | b2 :: b3 :: rest3 =>
        if (if b = 224 then 160 ≤ b2 ∧ b2 ≤ 191
            else if b = 237 then 128 ≤ b2 ∧ b2 ≤ 159
            else 128 ≤ b2 ∧ b2 ≤ 191) ∧ 128 ≤ b3 ∧ b3 ≤ 191 then
          Char.ofNat ((b - 224) * 4096 + (b2 - 128) * 64 + (b3 - 128)) :: utf8DecodeGo fuel rest3
        else '�' :: utf8DecodeGo fuel (b2 :: b3 :: rest3)
      | [b2] => '�' :: utf8DecodeGo fuel [b2]
      | [] => ['�']
    else if 240 ≤ b ∧ b ≤ 244 then
      match rest with
      | b2 :: b3 :: b4 :: rest4 =>
        if (if b = 240 then 144 ≤ b2 ∧ b2 ≤ 191
            else if b = 244 then 128 ≤ b2 ∧ b2 ≤ 143
            else 128 ≤ b2 ∧ b2 ≤ 191) ∧ 128 ≤ b3 ∧ b3 ≤ 191 ∧ 128 ≤ b4 ∧ b4 ≤ 191 then
          Char.ofNat ((b - 240) * 262144 + (b2 - 128) * 4096 + (b3 - 128) * 64 + (b4 - 128))
            :: utf8DecodeGo fuel rest4
        else '�' :: utf8DecodeGo fuel (b2 :: b3 :: b4 :: rest4)
      | [b2, b3] => '�' :: utf8DecodeGo fuel [b2, b3]
      | [b2] => '�' :: utf8DecodeGo fuel [b2]
      | [] => ['�']
    else '�' :: utf8DecodeGo fuel rest

/-- Decoding runs with fuel equal to the byte count; every step consumes at
least one byte, so the fuel never runs out. -/
def utf8DecodeAux (bs : List Nat) : List Char := utf8DecodeGo bs.length bs

/-- `buffer.toString("utf8")` as a total function into `String`. -/
def utf8DecodeReplace (bs : List Nat) : String := ⟨utf8DecodeAux bs⟩

/-- String-literal escaping of one character, as `JSON.stringify` performs it. -/
def escapeChar (c : Char) : List Char :=
  if c = '"' then ['\\', '"']
  else if c = '\\' then ['\\', '\\']
  else if c = '\n' then ['\\', 'n']
  else if c = '\r' then ['\\', 'r']
  else if c = '\t' then ['\\', 't']
  else if c = '\x08' then ['\\', 'b']
  else if c = '\x0c' then ['\\', 'f']
  else if c.toNat < 32 then
    ['\\', 'u', '0', '0', hexDigitChar (c.toNat / 16), hexDigitChar (c.toNat % 16)]
  else [c]

/-- The characters of a JSON string literal, quotes included. -/
def strLitChars (s : String) : List Char :=
  '"' :: (s.data.map escapeChar).flatten ++ ['"']

/-- Comma-join pieces of serialized members. -/
def joinCommaChars : List (List Char) → List Char
  | [] => []
  | [x] => x
  | x :: y :: xs => x ++ ',' :: joinCommaChars (y :: xs)

mutual
/-- Characters of `JSON.stringify(j)` (compact form, no added whitespace). -/
def stringifyChars : Json → List Char
  | Json.null => ['n', 'u', 'l', 'l']
  | Json.bool true => ['t', 'r', 'u', 'e']
  | Json.bool false => ['f', 'a', 'l', 's', 'e']
  | Json.num n => (toString n).data
  | Json.str s => strLitChars s
  | Json.arr xs => '[' :: joinCommaChars (stringifyList xs) ++ [']']
  | Json.obj fs => '{' :: joinCommaChars (stringifyFields fs) ++ ['}']

/-- Serialized elements of an array. -/
def stringifyList : List Json → List (List Char)
  | [] => []
  | x :: xs => stringifyChars x :: stringifyList xs

/-- Serialized `"key":value` members of an object, in property order. -/
def stringifyFields : List (String × Json) → List (List Char)
  | [] => []
  | (k, v) :: fs => (strLitChars k ++ ':' :: stringifyChars v) :: stringifyFields fs
end

/-- `JSON.stringify` as the repository's note serializer invokes it. -/
def jsonStringify (j : Json) : String := ⟨stringifyChars j⟩

/-- Numeric value of a hexadecimal digit, if the character is one. -/
def hexVal (c : Char) : Option Nat :=
  if 48 ≤ c.toNat ∧ c.toNat ≤ 57 then some (c.toNat - 48)
  else if 97 ≤ c.toNat ∧ c.toNat ≤ 102 then some (c.toNat - 87)
  else if 65 ≤ c.toNat ∧ c.toNat ≤ 70 then some (c.toNat - 55)
  else none

/-- JSON whitespace accepted between tokens. -/
def isJsonWs (c : Char) : Bool := c = ' ' || c = '\t' || c = '\n' || c = '\r'

/-- Skip JSON whitespace. -/
def skipWs (cs : List Char) : List Char := cs.dropWhile isJsonWs

/-- Body of a JSON string literal after the opening quote: returns the decoded
string and the remainder after the closing quote. -/
def parseStrChars : List Char → List Char → Option (String × List Char)
  | [], _ => none
  | '"' :: r, acc => some (⟨acc.reverse⟩, r)
  | '\\' :: '"' :: r, acc => parseStrChars r ('"' :: acc)
  | '\\' :: '\\' :: r, acc => parseStrChars r ('\\' :: acc)
  | '\\' :: '/' :: r, acc => parseStrChars r ('/' :: acc)
  | '\\' :: 'n' :: r, acc => parseStrChars r ('\n' :: acc)
  | '\\' :: 't' :: r, acc => parseStrChars r ('\t' :: acc)
  | '\\' :: 'r' :: r, acc => parseStrChars r ('\r' :: acc)
  | '\\' :: 'b' :: r, acc => parseStrChars r ('\x08' :: acc)
  | '\\' :: 'f' :: r, acc => parseStrChars r ('\x0c' :: acc)
  | '\\' :: 'u' :: h1 :: h2 :: h3 :: h4 :: r, acc =>
    match hexVal h1, hexVal h2, hexVal h3, hexVal h4 with
    | some a, some b, some c, some d =>
      parseStrChars r (Char.ofNat (((a * 16 + b) * 16 + c) * 16 + d) :: acc)
    | _, _, _, _ => none
  | '\\' :: _, _ => none
  | c :: r, acc => parseStrChars r (c :: acc)

/-- Span of decimal digits. -/
def spanDigits (cs : List Char) : List Char × List Char :=
  (cs.takeWhile Char.isDigit, cs.dropWhile Char.isDigit)

/-- Decimal digits to a natural number. -/
def digitsToNat (ds : List Char) : Nat :=
  ds.foldl (fun a c => a * 10 + (c.toNat - 48)) 0

/-- Exponent suffix of a JSON number; the exponent's value is parsed for syntax
only (the model keeps the integer mantissa — note payloads only carry integers). -/
def parseExpDigits (n : Nat) (cs : List Char) : Option (Nat × List Char) :=
  let cs2 := match cs with
    | '+' :: r => r
    | '-' :: r => r
    | _ => cs
  match spanDigits cs2 with
  | ([], _) => none
  | (_, rest) => some (n, rest)

/-- Optional exponent part after the mantissa. -/
def parseExpPart (n : Nat) (cs : List Char) : Option (Nat × List Char) :=
  match cs with
  | 'e' :: r => parseExpDigits n r
  | 'E' :: r => parseExpDigits n r
  | _ => some (n, cs)

/-- Unsigned JSON number: digits, optional fraction, optional exponent. -/
def parseNumAux (cs : List Char) : Option (Nat × List Char) :=
  match spanDigits cs with
  | ([], _) => none
  | (ds, rest) =>
    match rest with
    | '.' :: r =>
      match spanDigits r with
      | ([], _) => none
      | (_, rest2) => parseExpPart (digitsToNat ds) rest2
    | _ => parseExpPart (digitsToNat ds) rest

/-- JSON number with optional leading minus. -/
def parseNumber (cs : List Char) : Option (Json × List Char) :=
  match cs with
  | '-' :: r => (parseNumAux r).map (fun p => (Json.num (-(p.1 : Int)), p.2))
  | _ => (parseNumAux cs).map (fun p => (Json.num (p.1 : Int), p.2))

mutual
/-- Recursive-descent JSON value parser (fuelled; `jsonParse` supplies ample fuel). -/
def parseVal (fuel : Nat) (cs : List Char) : Option (Json × List Char) :=
  match fuel with
  | 0 => none
  | fuel + 1 =>
    match skipWs cs with
    | 'n' :: 'u' :: 'l' :: 'l' :: r => some (Json.null, r)
    | 't' :: 'r' :: 'u' :: 'e' :: r => some (Json.bool true, r)
    | 'f' :: 'a' :: 'l' :: 's' :: 'e' :: r => some (Json.bool false, r)
    | '"' :: r =>
      match parseStrChars r [] with
      | some (s, r2) => some (Json.str s, r2)
      | none => none
    | '[' :: r =>
      match skipWs r with
      | ']' :: r2 => some (Json.arr [], r2)
      | r2 => parseArrElems fuel r2 []
    | '{' :: r =>
      match skipWs r with
      | '}' :: r2 => some (Json.obj [], r2)
      | r2 => parseObjMembers fuel r2 []
    | cs2 => parseNumber cs2

/-- Array elements after the opening bracket. -/
def parseArrElems (fuel : Nat) (cs : List Char) (acc : List Json) : Option (Json × List Char) :=
  match fuel with
  | 0 => none
  | fuel + 1 =>
    match parseVal fuel cs with
    | none => none
    | some (v, r) =>
      match skipWs r with
      | ',' :: r2 => parseArrElems fuel r2 (v :: acc)
      | ']' :: r2 => some (Json.arr (v :: acc).reverse, r2)
      | _ => none

/-- Object members after the opening brace; duplicate keys overwrite, as a
JavaScript object literal (and hence `JSON.parse`) resolves them. -/
def parseObjMembers (fuel : Nat) (cs : List Char) (acc : List (String × Json)) :
    Option (Json × List Char) :=
  match fuel with
  | 0 => none
  | fuel + 1 =>
    match skipWs cs with
    | '"' :: r =>
      match parseStrChars r [] with
      | none => none
      | some (k, r2) =>
        match skipWs r2 with
        | ':' :: r3 =>
          match parseVal fuel r3 with
          | none => none
          | some (v, r4) =>
            match skipWs r4 with
            | ',' :: r5 => parseObjMembers fuel r5 (objInsert acc k v)
            | '}' :: r5 => some (Json.obj (objInsert acc k v), r5)
            | _ => none
        | _ => none
    | _ => none
end

/-- `JSON.parse(s)`: a parsed value with nothing but whitespace left over, else
failure (modelling the thrown `SyntaxError` as `none`, which is what the
`try/catch` in `parseNotePayload` turns it into). -/
def jsonParse (s : String) : Option Json :=
  match parseVal (s.data.length + 1) s.data with
  | some (j, rest) => if skipWs rest = [] then some j else none
  | none => none

/-- The slice of an indexer `transaction` object the note codec reads: the note
field (raw bytes; the indexer delivers them base64-wrapped and `Buffer.from(_,
"base64")` unwraps them — that transparent transport is elided) and the
`confirmed-round` field.  `note = none` models a missing/undefined note. -/
structure Transaction where
  note : Option (List Nat)
  confirmedRound : Option Nat

/-- `decodeNote` from `algorand.js`: `null` for a missing or empty (falsy) note,
otherwise the note bytes decoded as UTF-8 text.  The `try/catch` is vacuous in
Node (base64/UTF-8 decoding never throws) and the decoder is total here too. -/
def decodeNote (t : Transaction) : Option String :=
  match t.note with
  | none => none
  | some bs => if bs = [] then none else some (utf8DecodeReplace bs)

/-- `parseNotePayload` from `algorand.js`: decode the note text and `JSON.parse`
it, with `null` for a missing note or a parse failure. -/
def parseNotePayload (t : Transaction) : Option Json :=
  match decodeNote t with
  | none => none
  | some noteText => if noteText = "" then none else jsonParse noteText

/-- Leftmost 64-character hexadecimal run in the text: the model of
`noteText.match(/[a-f0-9]{64}/i)` (fixed-length pattern, so the leftmost
feasible start yields exactly 64 characters). -/
def findHexRunAux : List Char → Option (List Char)
  | [] => none
  | c :: rest =>
    let cand := (c :: rest).take 64
    if cand.length = 64 && cand.all (fun d => (hexVal d).isSome) then some cand
    else findHexRunAux rest

/-- The matched 64-hex substring of a string, if any. -/
def findHexRun (s : String) : Option String := (findHexRunAux s.data).map (fun l => ⟨l⟩)

/-- `parseHashFromTransaction` from `algorand.js`: the lowercased `hash` field of
the parsed note when it is a string; otherwise the fallback scan of the raw note
text for a bare 64-hex substring, lowercased; `null` when neither exists. -/
def parseHashFromTransaction (t : Transaction) : Option String :=
  let parsedHash :=
    match parseNotePayload t with
    | some p =>
      match jsonGet p "hash" with
      | some (Json.str h) => some h
      | _ => none
    | none => none
  match parsedHash with
  | some h => some (strToLower h)
  | none =>
    match decodeNote t with
    | none => none
    | some noteText =>
      if noteText = "" then none
      else (findHexRun noteText).map strToLower

/-- The note payload object `buildTrustChainNote` constructs:
`{ app: "TrustChain", hash, ...metadata, createdAt }` with JavaScript spread
semantics (metadata keys overwrite in place, fresh keys append, `createdAt` is
written last).  `createdAt` is the caller's clock reading
(`new Date().toISOString()`), an external input. -/
def notePayload (hash : String) (metadata : List (String × Json)) (createdAt : String) : Json :=
  Json.obj
    (objInsert
      (metadata.foldl (fun fs kv => objInsert fs kv.1 kv.2)
        [("app", Json.str "TrustChain"), ("hash", Json.str hash)])
      "createdAt" (Json.str createdAt))

/-- `buildTrustChainNote` from `algorand.js`: the UTF-8 bytes of the JSON
serialization of the note payload.  No size check, no truncation: the function
returns the full serialization unconditionally. -/
def buildTrustChainNote (hash : String) (metadata : List (String × Json))
    (createdAt : String) : List Nat :=
  utf8Encode (jsonStringify (notePayload hash metadata createdAt))

/-- The issuer account state assembled by `fetchIssuerAccountState`:
`spendable = Math.max(amount - minBalance, 0)`, which truncated subtraction on
`Nat` models exactly. -/
structure AccountState where
  address : String
  amount : Nat
  minBalance : Nat
  spendable : Nat

/-- The state object `fetchIssuerAccountState` returns for given ledger data. -/
def mkAccountState (address : String) (amount minBalance : Nat) : AccountState :=
  { address := address, amount := amount, minBalance := minBalance,
    spendable := amount - minBalance }

/-- `buildIssuerStatus` from `routes.js` (the payload slice the claims concern):
`canIssue` is `amount >= issueMinRecommendedMicroAlgos` — the raw balance, not
the spendable balance, is compared against the threshold. -/
def buildIssuerStatus (accountState : AccountState) (issueMinRecommendedMicroAlgos : Nat) :
    Bool :=
  decide (accountState.amount ≥ issueMinRecommendedMicroAlgos)

/-- Where control flow of the `POST /api/proofs/issue` handler ends up before
any ledger write, or the fact that it reached the first write
(`createProofTransaction`).  The three error constructors are the `res.status(400)`
early returns; only `submitted` goes on to sign and broadcast anything. -/
inductive IssueOutcome where
  | missingFile
  | missingMnemonic
  | insufficientFunds (issuer : String) (amount requiredForIssue : Nat)
  | submitted (hash : String)
deriving DecidableEq

/-- The guard chain of the `POST /api/proofs/issue` handler in `routes.js`:
file present, `ALGORAND_MNEMONIC` configured, then
`issuerState.amount < issueMinRecommendedMicroAlgos` aborts with the
insufficient-funds response; otherwise the handler hashes the file and proceeds
to the ledger writes. -/
def issueHandler (hasValidFile : Bool) (mnemonicConfigured : Bool)
    (issuerState : AccountState) (issueMinRecommendedMicroAlgos : Nat)
    (fileHash : String) : IssueOutcome :=
  if !hasValidFile then IssueOutcome.missingFile
  else if !mnemonicConfigured then IssueOutcome.missingMnemonic
  else if issuerState.amount < issueMinRecommendedMicroAlgos then
    IssueOutcome.insufficientFunds issuerState.address issuerState.amount
      issueMinRecommendedMicroAlgos
  else IssueOutcome.submitted fileHash

/-- Early rejections of the `POST /api/proofs/verify` handler, all issued before
the transaction lookup. -/
inductive VerifyReject where
  | noFile
  | missingId
  | badIdFormat
deriving DecidableEq

/-- `/^[A-Z2-7]{52}$/.test(s)`: 52 characters, each `A`–`Z` or `2`–`7`. -/
def isValidTxIdFormat (s : String) : Bool :=
  s.data.length = 52 &&
    s.data.all (fun c => (65 ≤ c.toNat && c.toNat ≤ 90) || (50 ≤ c.toNat && c.toNat ≤ 55))

/-- The validation stage of the `POST /api/proofs/verify` handler, up to (and
excluding) the `fetchTransactionById` call: either an early rejection, or the
normalized transaction id the network lookup is then invoked on.  The lookup is
reachable only through `Sum.inr`, so a rejected request performs no network
call. -/
def verifyPrepare (hasFile : Bool) (rawTransactionId : String) : Sum VerifyReject String :=
  if !hasFile then Sum.inl VerifyReject.noFile
  else
    let transactionId := strToUpper (jsTrim rawTransactionId)
    if transactionId = "" then Sum.inl VerifyReject.missingId
    else if !isValidTxIdFormat transactionId then Sum.inl VerifyReject.badIdFormat
    else Sum.inr transactionId

/-- Outcome of the verify handler after the lookup: the 404/422 error responses,
or the ordinary JSON result `{status, verified, transactionId, uploadedHash,
onChainHash, confirmedRound}` — both verdicts travel through the same
`res.json` success response. -/
inductive VerifyOutcome where
  | notFound
  | noProofData
  | result (status : String) (verified : Bool) (transactionId uploadedHash onChainHash : String)
      (confirmedRound : Option Nat)
deriving DecidableEq

/-- The rest of the `POST /api/proofs/verify` handler: hash the upload, inspect
the fetched transaction (`none` models the indexer returning no transaction),
decode its note, and compare the two fingerprints with `===`. -/
def verifyFinish (digest : List Nat → List Nat) (fileBuffer : List Nat)
    (transactionId : String) (fetched : Option Transaction) : VerifyOutcome :=
  let uploadedHash := computeSHA256 digest fileBuffer
  match fetched with
  | none => VerifyOutcome.notFound
  | some transaction =>
    match parseHashFromTransaction transaction with
    | none => VerifyOutcome.noProofData
    | some onChainHash =>
      let verified := uploadedHash == onChainHash
      VerifyOutcome.result (if verified then "VERIFIED" else "INVALID") verified
        transactionId uploadedHash onChainHash transaction.confirmedRound

/-- One row of `fetchIssuerTransactionHistory`'s output, the input shape of
`deriveProofsFromTransactions`.  `hash` and `noteType` hold the note's `hash` /
`type` fields when truthy and `none` otherwise (the `?  : null` in
`fetchIssuerTransactionHistory`); `roundTime`, `confirmedRound` and `assetId`
carry the `|| null` of the indexer fields. -/
structure TxRecord where
  id : String
  roundTime : Option Nat
  confirmedRound : Option Nat
  hash : Option String
  noteType : Option String
  note : Option Json
  assetId : Option Nat

/-- Truthiness of an optional string field (`undefined`/`null`/`""` falsy). -/
def jsStrTruthy (v : Option String) : Bool :=
  match v with
  | some s => s != ""
  | none => false

/-- Truthiness of an optional number field (`undefined`/`null`/`0` falsy). -/
def jsNatTruthy (v : Option Nat) : Bool :=
  match v with
  | some n => n != 0
  | none => false

/-- `Map.prototype.set`: overwrite an existing key in place, else append. -/
def mapSet (m : List (String × Nat)) (k : String) (v : Nat) : List (String × Nat) :=
  match m with
  | [] => [(k, v)]
  | (k', v') :: rest => if k' = k then (k', v) :: rest else (k', v') :: mapSet rest k v

/-- `Map.prototype.get`, `none` for an absent key. -/
def mapGet (m : List (String × Nat)) (k : String) : Option Nat :=
  (m.find? (fun p => p.1 = k)).map (fun p => p.2)

/-- Does this transaction row enter the fingerprint-to-asset lookup?  The first
loop of `deriveProofsFromTransactions` requires `noteType === "asa"`, a truthy
hash and a truthy asset id. -/
def isAsaEntry (t : TxRecord) : Bool :=
  t.noteType = some "asa" && jsStrTruthy t.hash && jsNatTruthy t.assetId

/-- The `assetByHash` map: one `Map.set` per qualifying row, in input order, so
a later row with the same fingerprint overwrites an earlier one. -/
def buildAssetByHash (transactions : List TxRecord) : List (String × Nat) :=
  transactions.foldl
    (fun m t => if isAsaEntry t then mapSet m (t.hash.getD "") (t.assetId.getD 0) else m) []

/-- The reconstructed proof record emitted for one marker transaction.
`issuedAtRoundTime` carries the `round-time` the handler renders as the
`issuedAt` ISO string (`new Date(roundTime * 1000).toISOString()`, an injective
rendering); `none` models the `null` of a falsy `roundTime`. -/
structure ProofRecord where
  id : String
  fileName : Json
  referenceLabel : Json
  mimeType : Json
  fileSize : Json
  hash : String
  transactionId : String
  transactionRound : Option Nat
  assetId : Option Nat
  issuedAtRoundTime : Option Nat

/-- The `.filter` predicate of `deriveProofsFromTransactions`:
`noteType === "proof"` and a truthy hash. -/
def isProofEntry (t : TxRecord) : Bool :=
  t.noteType = some "proof" && jsStrTruthy t.hash

/-- The `.map` body of `deriveProofsFromTransactions` building one record,
including the `note || {}`, the `|| null` fallbacks on note fields, and
`assetByHash.get(hash) || null`. -/
def mkProofRecord (assetByHash : List (String × Nat)) (t : TxRecord) : ProofRecord :=
  let note := jsOr t.note (Json.obj [])
  { id := t.id
    fileName := jsOr (jsonGet note "fileName") (Json.str "Untitled file")
    referenceLabel := jsOr (jsonGet note "referenceLabel") Json.null
    mimeType := jsOr (jsonGet note "mimeType") Json.null
    fileSize := jsOr (jsonGet note "fileSize") Json.null
    hash := t.hash.getD ""
    transactionId := t.id
    transactionRound := t.confirmedRound
    assetId :=
      match mapGet assetByHash (t.hash.getD "") with
      | some a => if a = 0 then none else some a
      | none => none
    issuedAtRoundTime :=
      match t.roundTime with
      | some r => if r = 0 then none else some r
      | none => none }

/-- The sort key `(record.transactionRound || 0)` of the comparator. -/
def roundKey (r : ProofRecord) : Nat := r.transactionRound.getD 0

/-- Stable insertion into a descending-by-round list: an element moves in front
only of strictly smaller keys, so equal keys keep their original order. -/
def insertRoundDesc (x : ProofRecord) : List ProofRecord → List ProofRecord
  | [] => [x]
  | y :: ys => if roundKey y ≤ roundKey x then x :: y :: ys else y :: insertRoundDesc x ys

/-- Stable sort by descending round: the unique stable result of
`.sort((a, b) => (b.transactionRound || 0) - (a.transactionRound || 0))`
(`Array.prototype.sort` is required to be stable). -/
def sortRoundDesc : List ProofRecord → List ProofRecord
  | [] => []
  | x :: xs => insertRoundDesc x (sortRoundDesc xs)

/-- The records of `deriveProofsFromTransactions` before the final `.sort`, in
input order: filter the marker transactions, build each record against the
fingerprint-to-asset lookup of the whole window. -/
def preSortRecords (transactions : List TxRecord) : List ProofRecord :=
  (transactions.filter isProofEntry).map (mkProofRecord (buildAssetByHash transactions))

/-- `deriveProofsFromTransactions` from `routes.js`. -/
def deriveProofsFromTransactions (transactions : List TxRecord) : List ProofRecord :=
  sortRoundDesc (preSortRecords transactions)

/-- C1 counterexample: with balance 400000 and min-balance 100000 the spendable
balance (balance minus min-balance requirement) is 300000, below the configured
threshold 350000, yet the issue handler does not abort with InsufficientFunds —
it proceeds to the ledger writes.  The code compares the raw balance
(`issuerState.amount`), not `amount - minBalance`, against the threshold. -/
theorem c1_counterexample_spendable_below_threshold_still_submits :
    (mkAccountState "ISSUER" 400000 100000).amount -
        (mkAccountState "ISSUER" 400000 100000).minBalance < 350000
    ∧ issueHandler true true (mkAccountState "ISSUER" 400000 100000) 350000 "abc123" =
        IssueOutcome.submitted "abc123" := by
  decide

/-- C1 (amended): for every issuance request with a file and a configured
mnemonic, when the issuer's raw balance (`amount`, without subtracting the
min-balance requirement) is below the configured threshold, the issue handler
aborts with the InsufficientFunds response and never reaches the ledger writes
(no marker transaction, no asset creation). -/
theorem c1_issue_aborts_on_low_balance (issuerState : AccountState)
    (issueMinRecommendedMicroAlgos : Nat) (fileHash : String)
    (hlow : issuerState.amount < issueMinRecommendedMicroAlgos) :
    issueHandler true true issuerState issueMinRecommendedMicroAlgos fileHash =
      IssueOutcome.insufficientFunds issuerState.address issuerState.amount
        issueMinRecommendedMicroAlgos
    ∧ ∀ h, issueHandler true true issuerState issueMinRecommendedMicroAlgos fileHash ≠
        IssueOutcome.submitted h := by
  refine ⟨?_, ?_⟩
  · simp [issueHandler, hlow]
  · intro h
    simp [issueHandler, hlow]

/-- C1 witness: the spec's own example — balance 100000 microalgos against the
default threshold 350000 — aborts with InsufficientFunds. -/
theorem c1_issue_aborts_on_low_balance_witness :
    (mkAccountState "ISSUER" 100000 0).amount < 350000
    ∧ (issueHandler true true (mkAccountState "ISSUER" 100000 0) 350000 "abc123" =
        IssueOutcome.insufficientFunds "ISSUER" 100000 350000
      ∧ ∀ h, issueHandler true true (mkAccountState "ISSUER" 100000 0) 350000 "abc123" ≠
          IssueOutcome.submitted h) :=
  ⟨by decide, c1_issue_aborts_on_low_balance (mkAccountState "ISSUER" 100000 0) 350000
    "abc123" (by decide)⟩

/-- C4: the verify handler validates the transaction id before any network
lookup.  First conjunct: every id the lookup stage can ever be invoked on
(the `Sum.inr` of `verifyPrepare`) matches the `^[A-Z2-7]{52}$` pattern.
Second conjunct: when the normalized (trimmed, upper-cased) id fails the
pattern, the handler rejects the request before the lookup — as a missing-id
or invalid-format error — and no `Sum.inr` (hence no fetch) is produced. -/
theorem c4_invalid_txid_rejected_before_lookup (hasFile : Bool) (rawTransactionId : String) :
    (∀ tid, verifyPrepare hasFile rawTransactionId = Sum.inr tid →
      isValidTxIdFormat tid = true)
    ∧ (isValidTxIdFormat (strToUpper (jsTrim rawTransactionId)) = false →
        (∀ tid, verifyPrepare hasFile rawTransactionId ≠ Sum.inr tid)
        ∧ (hasFile = true →
            verifyPrepare hasFile rawTransactionId = Sum.inl VerifyReject.missingId ∨
            verifyPrepare hasFile rawTransactionId = Sum.inl VerifyReject.badIdFormat)) := by
  constructor
  · intro tid htid
    unfold verifyPrepare at htid
    by_cases hf : hasFile
    · simp [hf] at htid
      by_cases he : strToUpper (jsTrim rawTransactionId) = ""
      · simp [he] at htid
      · simp [he] at htid
        by_cases hv : isValidTxIdFormat (strToUpper (jsTrim rawTransactionId)) = true
        · simp [hv] at htid
          rw [← htid]
          exact hv
        · simp [Bool.not_eq_true] at hv
          simp [hv] at htid
    · simp [hf] at htid
  · intro hbad
    constructor
    · intro tid htid
      unfold verifyPrepare at htid
      by_cases hf : hasFile
      · by_cases he : strToUpper (jsTrim rawTransactionId) = ""
        · simp [hf, he] at htid
        · simp [hf, he, hbad] at htid
      · simp [hf] at htid
    · intro hf
      unfold verifyPrepare
      by_cases he : strToUpper (jsTrim rawTransactionId) = ""
      · exact Or.inl (by simp [hf, he])
      · exact Or.inr (by simp [hf, he, hbad])

/-- C4 witness: a lower-case (hence, after normalization, too-short) id `abc`
fails the pattern and is rejected before any lookup. -/
theorem c4_invalid_txid_rejected_before_lookup_witness :
    isValidTxIdFormat (strToUpper (jsTrim "abc")) = false
    ∧ ((∀ tid, verifyPrepare true "abc" ≠ Sum.inr tid)
      ∧ (true = true →
          verifyPrepare true "abc" = Sum.inl VerifyReject.missingId ∨
          verifyPrepare true "abc" = Sum.inl VerifyReject.badIdFormat)) :=
  ⟨by decide, (c4_invalid_txid_rejected_before_lookup true "abc").2 (by decide)⟩

/-- `Char.ofNat` round-trips on the codepoints below the surrogate range. -/
theorem toNat_charOfNat_of_valid {n : Nat} (h : n < 55296) : (Char.ofNat n).toNat = n := by
  unfold Char.ofNat
  rw [dif_pos (Or.inl h)]
  rfl

/-- Lower-casing is idempotent on characters. -/
theorem charToLower_charToLower (c : Char) : charToLower (charToLower c) = charToLower c := by
  unfold charToLower
  by_cases h : 65 ≤ c.toNat ∧ c.toNat ≤ 90
  · rw [if_pos h]
    have hv : (Char.ofNat (c.toNat + 32)).toNat = c.toNat + 32 :=
      toNat_charOfNat_of_valid (by omega)
    rw [if_neg (by omega)]
  · rw [if_neg h, if_neg h]

/-- Lower-casing is idempotent on strings. -/
theorem strToLower_strToLower (s : String) : strToLower (strToLower s) = strToLower s := by
  unfold strToLower
  simp [List.map_map, Function.comp_def, charToLower_charToLower]

/-- Hex digit characters are already lowercase. -/
theorem charToLower_hexDigitChar (n : Nat) : charToLower (hexDigitChar n) = hexDigitChar n := by
  unfold hexDigitChar
  split <;> decide

/-- A hex digest rendering is already lowercase. -/
theorem strToLower_bytesToHex (bs : List Nat) : strToLower (bytesToHex bs) = bytesToHex bs := by
  unfold strToLower bytesToHex
  simp only [List.map_flatten, List.map_map]
  congr 1
  congr 1
  apply List.map_congr_left
  intro b _
  simp [Function.comp_def, byteToHex, charToLower_hexDigitChar]

/-- Whatever fingerprint the note decoder recovers is already lowercase: both
the JSON path and the fallback scan end in `.toLowerCase()`. -/
theorem parseHashFromTransaction_lower {t : Transaction} {h : String}
    (hp : parseHashFromTransaction t = some h) : strToLower h = h := by
  unfold parseHashFromTransaction at hp
  rcases hmatch : (match parseNotePayload t with
    | some p =>
      match jsonGet p "hash" with
      | some (Json.str h) => some h
      | _ => none
    | none => none : Option String) with _ | h0
  · rw [hmatch] at hp
    rcases hdec : decodeNote t with _ | noteText
    · simp [hdec] at hp
    · simp only [hdec] at hp
      by_cases he : noteText = ""
      · simp [he] at hp
      · simp only [he, if_false] at hp
        rcases hfind : findHexRun noteText with _ | m
        · simp [hfind] at hp
        · simp [hfind] at hp
          rw [← hp]
          exact strToLower_strToLower m
  · rw [hmatch] at hp
    simp at hp
    rw [← hp]
    exact strToLower_strToLower h0

/-- `computeSHA256` output is already lowercase (hex rendering). -/
theorem strToLower_computeSHA256 (digest : List Nat → List Nat) (fileBuffer : List Nat) :
    strToLower (computeSHA256 digest fileBuffer) = computeSHA256 digest fileBuffer :=
  strToLower_bytesToHex (digest fileBuffer)

/-- C3: for every uploaded file and every fetched transaction whose note is
decodable to a fingerprint, the verify handler returns the ordinary result
response carrying status VERIFIED exactly when the computed fingerprint equals
the decoded on-chain fingerprint and INVALID otherwise (never an error
constructor), and — since the uploaded digest is rendered lowercase and the
decoder lowercases the on-chain value — that equality coincides with
case-insensitive comparison of the two fingerprints. -/
theorem c3_verify_verdict_case_insensitive (digest : List Nat → List Nat)
    (fileBuffer : List Nat) (transactionId : String) (tx : Transaction)
    (onChainHash : String)
    (hdec : parseHashFromTransaction tx = some onChainHash) :
    verifyFinish digest fileBuffer transactionId (some tx) =
      VerifyOutcome.result
        (if computeSHA256 digest fileBuffer == onChainHash then "VERIFIED" else "INVALID")
        (computeSHA256 digest fileBuffer == onChainHash) transactionId
        (computeSHA256 digest fileBuffer) onChainHash tx.confirmedRound
    ∧ ((computeSHA256 digest fileBuffer == onChainHash) = true ↔
        strToLower (computeSHA256 digest fileBuffer) = strToLower onChainHash) := by
  constructor
  · unfold verifyFinish
    simp only [hdec]
  · constructor
    · intro hbeq
      rw [eq_of_beq hbeq]
    · intro hl
      rw [strToLower_computeSHA256] at hl
      rw [parseHashFromTransaction_lower hdec] at hl
      exact beq_iff_eq.mpr hl

/-- Digest stub instantiating the external SHA-256 collaborator in the C3
witness: a constant 32-byte output. -/
def c3Digest (_fileBuffer : List Nat) : List Nat := List.replicate 32 0

/-- The 64-zero hex fingerprint `c3Digest` renders to. -/
def c3Zeros : String := ⟨List.replicate 64 '0'⟩

/-- A concrete transaction whose note carries the fingerprint `c3Zeros`. -/
def c3SampleTx : Transaction :=
  ⟨some (utf8Encode (jsonStringify (Json.obj [("hash", Json.str c3Zeros)]))), some 5⟩

/-- C3 witness: a concrete transaction with a decodable fingerprint, on which
the verify handler yields the VERIFIED result via the case-insensitive
comparison. -/
theorem c3_verify_verdict_case_insensitive_witness :
    parseHashFromTransaction c3SampleTx = some c3Zeros
    ∧ (verifyFinish c3Digest [] "TID" (some c3SampleTx) =
        VerifyOutcome.result
          (if computeSHA256 c3Digest [] == c3Zeros then "VERIFIED" else "INVALID")
          (computeSHA256 c3Digest [] == c3Zeros) "TID"
          (computeSHA256 c3Digest []) c3Zeros c3SampleTx.confirmedRound
      ∧ ((computeSHA256 c3Digest [] == c3Zeros) = true ↔
          strToLower (computeSHA256 c3Digest []) = strToLower c3Zeros)) :=
  ⟨by decide, c3_verify_verdict_case_insensitive c3Digest [] "TID" c3SampleTx c3Zeros
    (by decide)⟩

/-- Strict UTF-8 validity of a byte sequence (no decoding, just the check):
used to state that a counterexample input is genuinely not valid UTF-8. -/
def utf8ValidGo (fuel : Nat) (bs : List Nat) : Bool :=
  match fuel, bs with
  | _, [] => true
  | 0, _ => false
  | fuel + 1, b :: rest =>
    if b < 128 then utf8ValidGo fuel rest
    else if 194 ≤ b ∧ b ≤ 223 then
      match rest with
      | b2 :: rest2 => if 128 ≤ b2 ∧ b2 ≤ 191 then utf8ValidGo fuel rest2 else false
      | [] => false
    else if 224 ≤ b ∧ b ≤ 239 then
      match rest with
      | b2 :: b3 :: rest3 =>
        if (if b = 224 then 160 ≤ b2 ∧ b2 ≤ 191
            else if b = 237 then 128 ≤ b2 ∧ b2 ≤ 159
            else 128 ≤ b2 ∧ b2 ≤ 191) ∧ 128 ≤ b3 ∧ b3 ≤ 191 then utf8ValidGo fuel rest3
        else false
      | _ => false
    else if 240 ≤ b ∧ b ≤ 244 then
      match rest with
      | b2 :: b3 :: b4 :: rest4 =>
        if (if b = 240 then 144 ≤ b2 ∧ b2 ≤ 191
            else if b = 244 then 128 ≤ b2 ∧ b2 ≤ 143
            else 128 ≤ b2 ∧ b2 ≤ 191) ∧ 128 ≤ b3 ∧ b3 ≤ 191 ∧ 128 ≤ b4 ∧ b4 ≤ 191 then
          utf8ValidGo fuel rest4
        else false
      | _ => false
    else false

/-- Validity checker at full fuel. -/
def utf8ValidBytes (bs : List Nat) : Bool := utf8ValidGo bs.length bs

/-- C6 counterexample input: sixty-four `a` bytes followed by the byte 255,
which can never occur in valid UTF-8. -/
def c6BadBytes : List Nat := List.replicate 64 97 ++ [255]

/-- C6 counterexample: a note whose bytes are not valid UTF-8 does not make
decode return null — the bytes are decoded with a U+FFFD replacement character
and the fallback scan still recovers a fingerprint.  The claim that decode
returns null on every non-UTF-8 input is false on this input. -/
theorem c6_counterexample_nonutf8_recovers_hash :
    utf8ValidBytes c6BadBytes = false
    ∧ parseHashFromTransaction ⟨some c6BadBytes, none⟩ =
        some ⟨List.replicate 64 'a'⟩ := by
  decide

/-- C6 (amended): the note decoder is a total function (never throws) and
returns null exactly in the no-fingerprint cases — a missing note, an empty
note, or note text (after replacement-decoding of any invalid UTF-8 bytes)
that neither parses as JSON with a string `hash` field nor contains a
64-hex-character substring.  Non-UTF-8 bytes as such are not rejected. -/
theorem c6_decode_null_cases (t : Transaction) :
    (t.note = none → parseHashFromTransaction t = none)
    ∧ (t.note = some [] → parseHashFromTransaction t = none)
    ∧ (∀ noteText, decodeNote t = some noteText → jsonParse noteText = none →
        findHexRun noteText = none → parseHashFromTransaction t = none)
    ∧ (∀ noteText j, decodeNote t = some noteText → jsonParse noteText = some j →
        (∀ s, jsonGet j "hash" ≠ some (Json.str s)) →
        findHexRun noteText = none → parseHashFromTransaction t = none) := by
  refine ⟨?_, ?_, ?_, ?_⟩
  · intro h
    simp [parseHashFromTransaction, parseNotePayload, decodeNote, h]
  · intro h
    simp [parseHashFromTransaction, parseNotePayload, decodeNote, h]
  · intro noteText hdec hjson hfind
    unfold parseHashFromTransaction parseNotePayload
    rw [hdec]
    by_cases he : noteText = ""
    · simp [he]
    · simp [he, hjson, hfind]
  · intro noteText j hdec hjson hget hfind
    unfold parseHashFromTransaction parseNotePayload
    rw [hdec]
    by_cases he : noteText = ""
    · simp [he]
    · have hnostr : (match jsonGet j "hash" with
        | some (Json.str h) => some h
        | _ => none : Option String) = none := by
        rcases hg : jsonGet j "hash" with _ | val
        · rfl
        · cases val with
          | str s => exact absurd hg (hget s)
          | null => rfl
          | bool b => rfl
          | num n => rfl
          | arr xs => rfl
          | obj fs => rfl
      simp [he, hjson, hnostr, hfind]

/-- C6 witness: the missing-note case and a concrete no-fingerprint note
(`hello`: not JSON, no 64-hex run) both decode to null. -/
theorem c6_decode_null_cases_witness :
    (parseHashFromTransaction ⟨none, none⟩ = none)
    ∧ (decodeNote ⟨some (utf8Encode "hello"), none⟩ = some "hello"
      ∧ jsonParse "hello" = none
      ∧ findHexRun "hello" = none
      ∧ parseHashFromTransaction ⟨some (utf8Encode "hello"), none⟩ = none) :=
  ⟨(c6_decode_null_cases ⟨none, none⟩).1 rfl,
   by decide, rfl, by decide,
   (c6_decode_null_cases ⟨some (utf8Encode "hello"), none⟩).2.2.1 "hello"
     (by decide) rfl (by decide)⟩

/-- C7: for every transaction whose decoded note text is not valid JSON but
contains a 64-hexadecimal-character substring, decode's fallback recovers the
leftmost such substring, normalized to lowercase, as the fingerprint — and no
structured note payload (no other ProofNote fields) is recovered. -/
theorem c7_fallback_hex_substring (t : Transaction) (noteText h : String)
    (hdec : decodeNote t = some noteText)
    (hjson : jsonParse noteText = none)
    (hhex : findHexRun noteText = some h) :
    parseHashFromTransaction t = some (strToLower h)
    ∧ parseNotePayload t = none := by
  have hne : noteText ≠ "" := by
    intro he
    rw [he] at hhex
    simp [findHexRun, findHexRunAux] at hhex
  have hpayload : parseNotePayload t = none := by
    unfold parseNotePayload
    rw [hdec]
    simp [hne, hjson]
  refine ⟨?_, hpayload⟩
  unfold parseHashFromTransaction
  rw [hpayload, hdec]
  simp [hne, hhex]

/-- C7 witness text: free text carrying a bare upper-case 64-hex substring. -/
def c7Text : String := "legacy note " ++ ⟨List.replicate 64 'A'⟩

/-- C7 witness: the fallback recovers the 64 upper-case `A`s, lowercased. -/
theorem c7_fallback_hex_substring_witness :
    (decodeNote ⟨some (utf8Encode c7Text), none⟩ = some c7Text
      ∧ jsonParse c7Text = none
      ∧ findHexRun c7Text = some ⟨List.replicate 64 'A'⟩)
    ∧ (parseHashFromTransaction ⟨some (utf8Encode c7Text), none⟩ =
        some (strToLower ⟨List.replicate 64 'A'⟩)
      ∧ parseNotePayload ⟨some (utf8Encode c7Text), none⟩ = none) :=
  ⟨⟨by decide, rfl, by decide⟩,
   c7_fallback_hex_substring ⟨some (utf8Encode c7Text), none⟩ c7Text
     ⟨List.replicate 64 'A'⟩ (by decide) rfl (by decide)⟩

/-- A property write at one key leaves lookups of other keys unchanged. -/
theorem find_objInsert_ne (fs : List (String × Json)) (k k' : String) (v : Json)
    (hne : k ≠ k') :
    (objInsert fs k v).find? (fun p => p.1 = k') = fs.find? (fun p => p.1 = k') := by
  induction fs with
  | nil => simp [objInsert, List.find?, hne]
  | cons p rest ih =>
    obtain ⟨pk, pv⟩ := p
    unfold objInsert
    by_cases hpk : pk = k
    · subst hpk
      simp only [if_pos rfl]
      simp [List.find?, hne, Ne.symm hne]
    · simp only [if_neg hpk]
      by_cases hp' : pk = k'
      · subst hp'
        simp [List.find?]
      · simp [List.find?, hp', ih]

/-- Spreading metadata without a `hash` key over the payload leaves the `hash`
binding unchanged. -/
theorem find_foldl_objInsert_hash (m : List (String × Json))
    (base : List (String × Json)) (hm : ∀ kv ∈ m, kv.1 ≠ "hash") :
    (m.foldl (fun fs kv => objInsert fs kv.1 kv.2) base).find? (fun p => p.1 = "hash") =
      base.find? (fun p => p.1 = "hash") := by
  induction m generalizing base with
  | nil => rfl
  | cons kv rest ih =>
    simp only [List.foldl_cons]
    rw [ih _ (fun x hx => hm x (List.mem_cons_of_mem _ hx))]
    exact find_objInsert_ne base kv.1 "hash" kv.2 (hm kv (List.mem_cons_self _ _))

/-- Reading a property of an object value. -/
theorem jsonGet_obj (fs : List (String × Json)) (k : String) :
    jsonGet (Json.obj fs) k = (fs.find? (fun p => p.1 = k)).map (fun p => p.2) := rfl

/-- The note payload's `hash` property is the fingerprint, for any metadata
without a `hash` key (the spread `{app, hash, ...metadata, createdAt}` cannot
then overwrite it). -/
theorem jsonGet_notePayload_hash (hash createdAt : String) (m : List (String × Json))
    (hm : ∀ kv ∈ m, kv.1 ≠ "hash") :
    jsonGet (notePayload hash m createdAt) "hash" = some (Json.str hash) := by
  unfold notePayload
  rw [jsonGet_obj]
  rw [find_objInsert_ne _ "createdAt" "hash" _ (by decide)]
  rw [find_foldl_objInsert_hash m _ hm]
  rfl

/-- Every character encodes to at least one byte. -/
theorem charUtf8_ne_nil (c : Char) : charUtf8 c ≠ [] := by
  unfold charUtf8
  split
  · simp
  · split
    · simp
    · split <;> simp

/-- A nonempty string encodes to a nonempty byte sequence. -/
theorem utf8Encode_ne_nil {s : String} (h : s.data ≠ []) : utf8Encode s ≠ [] := by
  unfold utf8Encode
  cases hd : s.data with
  | nil => exact absurd hd h
  | cons c cs =>
    simp only [List.map_cons, List.flatten_cons]
    intro hcontra
    rcases List.append_eq_nil.mp hcontra with ⟨h1, _⟩
    exact charUtf8_ne_nil c h1

/-- Unfolding of the object case of the serializer. -/
theorem stringifyChars_obj (fs : List (String × Json)) :
    stringifyChars (Json.obj fs) = '{' :: (joinCommaChars (stringifyFields fs) ++ ['}']) := rfl

/-- A serialized object starts with an opening brace. -/
theorem jsonStringify_obj_data (fs : List (String × Json)) :
    (jsonStringify (Json.obj fs)).data =
      '{' :: (joinCommaChars (stringifyFields fs) ++ ['}']) := rfl

/-- `decodeNote` on a concretely shaped transaction. -/
theorem decodeNote_some (bs : List Nat) (r : Option Nat) :
    decodeNote ⟨some bs, r⟩ = if bs = [] then none else some (utf8DecodeReplace bs) := rfl

/-- C5 counterexample input: an upper-case 64-hex fingerprint. -/
def c5Upper : String := ⟨List.replicate 64 'A'⟩

/-- C5 counterexample note: the encoding of `c5Upper` with empty metadata. -/
def c5Note : List Nat := buildTrustChainNote c5Upper [] "2024-01-01T00:00:00.000Z"

set_option maxRecDepth 8000 in
/-- C5 counterexample: decoding the encoding of the upper-case fingerprint
yields its lower-cased form, not the fingerprint itself — the round trip is not
the identity on mixed-case fingerprints, because decode normalizes to
lowercase. -/
theorem c5_counterexample_uppercase_not_identity :
    parseHashFromTransaction ⟨some c5Note, none⟩ = some ⟨List.replicate 64 'a'⟩
    ∧ parseHashFromTransaction ⟨some c5Note, none⟩ ≠ some c5Upper := by
  constructor
  · decide
  · decide

/-- C5 (amended): for every fingerprint, every creation timestamp, and every
metadata without a `hash` key, decoding the bytes produced by encode recovers
exactly the lower-cased fingerprint (hence the fingerprint itself whenever it
is already lowercase).  The two transport hypotheses state that the external
JSON/UTF-8 codecs round-trip this payload (Node guarantees this; the witness
discharges them by evaluation). -/
theorem c5_roundtrip_recovers_lowercase (hash createdAt : String)
    (m : List (String × Json))
    (hm : ∀ kv ∈ m, kv.1 ≠ "hash")
    (hutf : utf8DecodeReplace (buildTrustChainNote hash m createdAt) =
      jsonStringify (notePayload hash m createdAt))
    (hjson : jsonParse (jsonStringify (notePayload hash m createdAt)) =
      some (notePayload hash m createdAt)) :
    parseHashFromTransaction ⟨some (buildTrustChainNote hash m createdAt), none⟩ =
      some (strToLower hash) := by
  have hbytes : buildTrustChainNote hash m createdAt ≠ [] := by
    apply utf8Encode_ne_nil
    unfold notePayload
    rw [jsonStringify_obj_data]
    simp
  have hsne : jsonStringify (notePayload hash m createdAt) ≠ "" := by
    intro he
    have hd := congrArg String.data he
    unfold notePayload at hd
    rw [jsonStringify_obj_data] at hd
    have hd2 : '{' :: (joinCommaChars (stringifyFields _) ++ ['}']) = ([] : List Char) := hd
    exact List.noConfusion hd2
  have hdec : decodeNote ⟨some (buildTrustChainNote hash m createdAt), none⟩ =
      some (jsonStringify (notePayload hash m createdAt)) := by
    rw [decodeNote_some, if_neg hbytes, hutf]
  have hpayload : parseNotePayload ⟨some (buildTrustChainNote hash m createdAt), none⟩ =
      some (notePayload hash m createdAt) := by
    unfold parseNotePayload
    rw [hdec]
    simp [hsne, hjson]
  unfold parseHashFromTransaction
  rw [hpayload]
  simp only [jsonGet_notePayload_hash hash createdAt m hm]

/-- C5 witness metadata: the `type`/`fileName` fields issuance actually writes. -/
def c5wMeta : List (String × Json) :=
  [("type", Json.str "proof"), ("fileName", Json.str "f.txt")]

/-- C5 witness: a concrete mixed-case fingerprint round-trips to its lowercase
form, with the transport hypotheses discharged by evaluation. -/
theorem c5_roundtrip_recovers_lowercase_witness :
    ((∀ kv ∈ c5wMeta, kv.1 ≠ "hash")
      ∧ utf8DecodeReplace (buildTrustChainNote "AbC1" c5wMeta "2024-01-01T00:00:00.000Z") =
          jsonStringify (notePayload "AbC1" c5wMeta "2024-01-01T00:00:00.000Z")
      ∧ jsonParse (jsonStringify (notePayload "AbC1" c5wMeta "2024-01-01T00:00:00.000Z")) =
          some (notePayload "AbC1" c5wMeta "2024-01-01T00:00:00.000Z"))
    ∧ parseHashFromTransaction
        ⟨some (buildTrustChainNote "AbC1" c5wMeta "2024-01-01T00:00:00.000Z"), none⟩ =
        some (strToLower "AbC1") :=
  ⟨⟨by decide, by decide, rfl⟩,
   c5_roundtrip_recovers_lowercase "AbC1" "2024-01-01T00:00:00.000Z" c5wMeta
     (by decide) (by decide) rfl⟩

/-- A character list is no longer than its UTF-8 encoding. -/
theorem length_le_flatten_charUtf8 (l : List Char) :
    l.length ≤ ((l.map charUtf8).flatten).length := by
  induction l with
  | nil => simp
  | cons c cs ih =>
    simp only [List.map_cons, List.flatten_cons, List.length_append, List.length_cons]
    have h1 : 0 < (charUtf8 c).length := List.length_pos.2 (charUtf8_ne_nil c)
    omega

/-- Escaping a character produces at least one character. -/
theorem escapeChar_ne_nil (c : Char) : escapeChar c ≠ [] := by
  unfold escapeChar
  split
  · simp
  · split
    · simp
    · split
      · simp
      · split
        · simp
        · split
          · simp
          · split
            · simp
            · split
              · simp
              · split <;> simp

/-- A string is no longer than its escaped form. -/
theorem length_le_flatten_escapeChar (l : List Char) :
    l.length ≤ ((l.map escapeChar).flatten).length := by
  induction l with
  | nil => simp
  | cons c cs ih =>
    simp only [List.map_cons, List.flatten_cons, List.length_append, List.length_cons]
    have h1 : 0 < (escapeChar c).length := List.length_pos.2 (escapeChar_ne_nil c)
    omega

/-- A string is no longer than its string-literal serialization. -/
theorem length_le_strLitChars (s : String) : s.data.length ≤ (strLitChars s).length := by
  unfold strLitChars
  simp only [List.length_cons, List.length_append]
  have := length_le_flatten_escapeChar s.data
  omega

/-- Every comma-joined member bounds the joined length from below. -/
theorem length_le_joinCommaChars {x : List Char} {l : List (List Char)} (hx : x ∈ l) :
    x.length ≤ (joinCommaChars l).length := by
  induction l with
  | nil => cases hx
  | cons y ys ih =>
    cases ys with
    | nil =>
      rcases List.mem_singleton.mp hx with rfl
      exact Nat.le_refl _
    | cons z zs =>
      simp only [joinCommaChars, List.length_append, List.length_cons]
      rcases List.mem_cons.mp hx with rfl | hmem
      · omega
      · have := ih hmem
        omega

/-- Each object member's serialization occurs among the serialized fields. -/
theorem mem_stringifyFields {k : String} {v : Json} {fs : List (String × Json)}
    (hmem : (k, v) ∈ fs) :
    (strLitChars k ++ ':' :: stringifyChars v) ∈ stringifyFields fs := by
  induction fs with
  | nil => cases hmem
  | cons p rest ih =>
    obtain ⟨pk, pv⟩ := p
    rcases List.mem_cons.mp hmem with heq | hmem'
    · rw [Prod.mk.injEq] at heq
      obtain ⟨rfl, rfl⟩ := heq
      exact List.mem_cons_self _ _
    · exact List.mem_cons_of_mem _ (ih hmem')

/-- The serialized note is at least as long as the embedded fingerprint. -/
theorem hash_length_le_buildTrustChainNote (hash createdAt : String) :
    hash.data.length ≤ (buildTrustChainNote hash [] createdAt).length := by
  have hfields : notePayload hash [] createdAt =
      Json.obj [("app", Json.str "TrustChain"), ("hash", Json.str hash),
        ("createdAt", Json.str createdAt)] := rfl
  have hmem : (strLitChars "hash" ++ ':' :: stringifyChars (Json.str hash)) ∈
      stringifyFields [("app", Json.str "TrustChain"), ("hash", Json.str hash),
        ("createdAt", Json.str createdAt)] :=
    mem_stringifyFields (by simp)
  have h1 : hash.data.length ≤ (strLitChars "hash" ++ ':' :: stringifyChars (Json.str hash)).length := by
    simp only [List.length_append, List.length_cons]
    have : hash.data.length ≤ (stringifyChars (Json.str hash)).length := by
      show hash.data.length ≤ (strLitChars hash).length
      exact length_le_strLitChars hash
    omega
  have h2 : (strLitChars "hash" ++ ':' :: stringifyChars (Json.str hash)).length ≤
      (stringifyChars (notePayload hash [] createdAt)).length := by
    rw [hfields]
    rw [stringifyChars_obj]
    have hjc := length_le_joinCommaChars hmem
    simp only [List.length_cons, List.length_append] at hjc ⊢
    omega
  have h3 : (stringifyChars (notePayload hash [] createdAt)).length ≤
      (buildTrustChainNote hash [] createdAt).length := by
    unfold buildTrustChainNote utf8Encode
    exact length_le_flatten_charUtf8 _
  omega

/-- C2 counterexample fingerprint: 1100 characters, far beyond the 1024-byte
ledger note capacity. -/
def c2BigHash : String := ⟨List.replicate 1100 'a'⟩

set_option maxRecDepth 100000 in
/-- C2 counterexample: on an input whose serialization exceeds the 1024-byte
note capacity, encode does not fail — it returns the complete serialization,
a byte sequence longer than the capacity bound (there is no EncodingTooLarge
condition anywhere in the code). -/
theorem c2_counterexample_oversize_note_returned :
    buildTrustChainNote c2BigHash [] "2024-01-01T00:00:00.000Z" =
      utf8Encode (jsonStringify (notePayload c2BigHash [] "2024-01-01T00:00:00.000Z"))
    ∧ 1024 < (buildTrustChainNote c2BigHash [] "2024-01-01T00:00:00.000Z").length :=
  ⟨rfl, by decide⟩

/-- C2 (amended): encode enforces no size bound at all — for every candidate
capacity bound there is an input whose full, untruncated serialization is
longer, and encode returns it rather than reporting any error condition. -/
theorem c2_encode_has_no_size_bound (bound : Nat) :
    ∃ hash metadata createdAt,
      bound < (buildTrustChainNote hash metadata createdAt).length := by
  refine ⟨⟨List.replicate (bound + 1) 'a'⟩, [], "T", ?_⟩
  have h1 := hash_length_le_buildTrustChainNote ⟨List.replicate (bound + 1) 'a'⟩ "T"
  have h2 : (⟨List.replicate (bound + 1) 'a'⟩ : String).data.length = bound + 1 := by
    simp
  omega

/-- Membership in a stable insertion. -/
theorem mem_insertRoundDesc {a x : ProofRecord} {l : List ProofRecord} :
    a ∈ insertRoundDesc x l ↔ a = x ∨ a ∈ l := by
  induction l with
  | nil => simp [insertRoundDesc]
  | cons y ys ih =>
    unfold insertRoundDesc
    by_cases hc : roundKey y ≤ roundKey x
    · simp [hc]
    · simp only [if_neg hc, List.mem_cons, ih]
      tauto

/-- Membership is preserved by the stable sort. -/
theorem mem_sortRoundDesc {a : ProofRecord} {l : List ProofRecord} :
    a ∈ sortRoundDesc l ↔ a ∈ l := by
  induction l with
  | nil => simp [sortRoundDesc]
  | cons x xs ih =>
    unfold sortRoundDesc
    rw [mem_insertRoundDesc]
    simp [ih]

/-- Stable insertion preserves the descending-by-round invariant. -/
theorem pairwise_insertRoundDesc (x : ProofRecord) {l : List ProofRecord}
    (h : List.Pairwise (fun a b => roundKey b ≤ roundKey a) l) :
    List.Pairwise (fun a b => roundKey b ≤ roundKey a) (insertRoundDesc x l) := by
  induction l with
  | nil => simp [insertRoundDesc]
  | cons y ys ih =>
    rw [List.pairwise_cons] at h
    obtain ⟨hy, hys⟩ := h
    unfold insertRoundDesc
    by_cases hc : roundKey y ≤ roundKey x
    · rw [if_pos hc, List.pairwise_cons]
      refine ⟨?_, List.pairwise_cons.mpr ⟨hy, hys⟩⟩
      intro z hz
      rcases List.mem_cons.mp hz with rfl | hz'
      · exact hc
      · exact Nat.le_trans (hy z hz') hc
    · rw [if_neg hc, List.pairwise_cons]
      refine ⟨?_, ih hys⟩
      intro z hz
      rcases mem_insertRoundDesc.mp hz with rfl | hz'
      · omega
      · exact hy z hz'

/-- The stable sort produces a descending-by-round list. -/
theorem pairwise_sortRoundDesc (l : List ProofRecord) :
    List.Pairwise (fun a b => roundKey b ≤ roundKey a) (sortRoundDesc l) := by
  induction l with
  | nil => simp [sortRoundDesc]
  | cons x xs ih => exact pairwise_insertRoundDesc x ih

/-- Inserting an element whose key matches the filter puts it exactly at the
front of the filtered view (everything it moved past has a strictly larger
key). -/
theorem filter_insertRoundDesc_eq {x : ProofRecord} {l : List ProofRecord} {v : Nat}
    (hx : roundKey x = v) :
    (insertRoundDesc x l).filter (fun r => roundKey r == v) =
      x :: l.filter (fun r => roundKey r == v) := by
  induction l with
  | nil => simp [insertRoundDesc, hx]
  | cons y ys ih =>
    unfold insertRoundDesc
    by_cases hc : roundKey y ≤ roundKey x
    · rw [if_pos hc]
      simp [List.filter_cons, hx]
    · rw [if_neg hc]
      have hyv : (roundKey y == v) = false := by
        simp only [beq_eq_false_iff_ne]
        omega
      simp [List.filter_cons, hyv, ih]

/-- Inserting an element whose key misses the filter leaves the filtered view
unchanged. -/
theorem filter_insertRoundDesc_ne {x : ProofRecord} {l : List ProofRecord} {v : Nat}
    (hx : roundKey x ≠ v) :
    (insertRoundDesc x l).filter (fun r => roundKey r == v) =
      l.filter (fun r => roundKey r == v) := by
  induction l with
  | nil => simp [insertRoundDesc, hx]
  | cons y ys ih =>
    unfold insertRoundDesc
    by_cases hc : roundKey y ≤ roundKey x
    · rw [if_pos hc]
      simp [List.filter_cons, hx]
    · rw [if_neg hc]
      simp only [List.filter_cons]
      rw [ih]

/-- The stable sort preserves, for every round value, the original relative
order of the records with that round (their filtered subsequence is
unchanged). -/
theorem filter_sortRoundDesc (l : List ProofRecord) (v : Nat) :
    (sortRoundDesc l).filter (fun r => roundKey r == v) =
      l.filter (fun r => roundKey r == v) := by
  induction l with
  | nil => simp [sortRoundDesc]
  | cons x xs ih =>
    unfold sortRoundDesc
    by_cases hx : roundKey x = v
    · rw [filter_insertRoundDesc_eq hx, ih]
      simp [List.filter_cons, hx]
    · rw [filter_insertRoundDesc_ne hx, ih]
      simp [List.filter_cons, hx]

/-- C9: for every transaction window, the reconstructed proof records are
sorted by descending confirmation round (null rounds counting as zero, as the
comparator's `|| 0` does), and for every round value the records carrying it
appear in their original input order — the sort is stable. -/
theorem c9_sorted_desc_stable (transactions : List TxRecord) :
    List.Pairwise (fun a b => roundKey b ≤ roundKey a)
      (deriveProofsFromTransactions transactions)
    ∧ ∀ v, (deriveProofsFromTransactions transactions).filter (fun r => roundKey r == v) =
        (preSortRecords transactions).filter (fun r => roundKey r == v) := by
  constructor
  · exact pairwise_sortRoundDesc _
  · intro v
    exact filter_sortRoundDesc _ v

/-- `Map.get` after `Map.set`: the set key reads back the new value, other
keys are untouched. -/
theorem mapGet_mapSet (m : List (String × Nat)) (k : String) (v : Nat) (k' : String) :
    mapGet (mapSet m k v) k' = if k = k' then some v else mapGet m k' := by
  induction m with
  | nil =>
    by_cases h : k = k' <;> simp [mapSet, mapGet, List.find?, h]
  | cons p rest ih =>
    obtain ⟨pk, pv⟩ := p
    unfold mapSet
    by_cases hpk : pk = k
    · subst hpk
      by_cases h : pk = k' <;> simp [mapGet, List.find?, h]
    · rw [if_neg hpk]
      by_cases h : pk = k'
      · subst h
        have hkk' : k ≠ pk := fun hc => hpk hc.symm
        simp [mapGet, List.find?, hkk']
      · simp only [mapGet, List.find?] at ih ⊢
        simp [h, ih]

/-- The asset id the window's fingerprint-to-asset lookup yields for a key:
the asset id of the last qualifying `asa` row with that fingerprint, because
each `Map.set` overwrites the previous binding. -/
def lastMatchingAsset (transactions : List TxRecord) (k : String) : Option Nat :=
  (transactions.reverse.find? (fun t => isAsaEntry t && t.hash.getD "" == k)).map
    (fun t => t.assetId.getD 0)

/-- Folding the `Map.set` loop over the window: the resulting lookup returns
the last qualifying row's asset id, falling back to the initial map. -/
theorem mapGet_foldl_set (transactions : List TxRecord) (m : List (String × Nat)) (k : String) :
    mapGet (transactions.foldl
        (fun m t => if isAsaEntry t then mapSet m (t.hash.getD "") (t.assetId.getD 0) else m)
        m) k =
      match transactions.reverse.find? (fun t => isAsaEntry t && t.hash.getD "" == k) with
      | some t => some (t.assetId.getD 0)
      | none => mapGet m k := by
  induction transactions generalizing m with
  | nil => rfl
  | cons t rest ih =>
    simp only [List.foldl_cons, List.reverse_cons, List.find?_append]
    rw [ih]
    rcases hr : rest.reverse.find? (fun t => isAsaEntry t && t.hash.getD "" == k) with _ | t'
    · simp only [Option.none_or]
      by_cases ha : isAsaEntry t
      · rw [if_pos ha, mapGet_mapSet]
        by_cases hk : t.hash.getD "" = k
        · simp [List.find?, ha, hk]
        · have hk' : (t.hash.getD "" == k) = false := by
            simp [hk]
          simp only [List.find?, ha, hk', Bool.and_false]
          rw [if_neg hk]
      · rw [if_neg ha]
        simp [List.find?, ha]
    · simp

/-- The fingerprint-to-asset lookup is exactly `lastMatchingAsset`. -/
theorem mapGet_buildAssetByHash (transactions : List TxRecord) (k : String) :
    mapGet (buildAssetByHash transactions) k = lastMatchingAsset transactions k := by
  unfold buildAssetByHash lastMatchingAsset
  rw [mapGet_foldl_set]
  rcases hr : transactions.reverse.find? (fun t => isAsaEntry t && t.hash.getD "" == k)
      with _ | t'
  · rfl
  · rfl

/-- A qualifying `asa` row holds a nonzero asset id. -/
theorem assetId_pos_of_isAsaEntry {t : TxRecord} (h : isAsaEntry t = true) :
    t.assetId.getD 0 ≠ 0 := by
  unfold isAsaEntry jsNatTruthy at h
  rcases ha : t.assetId with _ | n
  · rw [ha] at h
    simp at h
  · rw [ha] at h
    simp only [Bool.and_eq_true, bne_iff_ne] at h
    simpa using h.2

/-- A qualifying `asa` row holds a nonempty fingerprint string. -/
theorem hash_some_of_isAsaEntry {t : TxRecord} (h : isAsaEntry t = true) :
    ∃ s, t.hash = some s ∧ s ≠ "" := by
  unfold isAsaEntry jsStrTruthy at h
  rcases ha : t.hash with _ | s
  · rw [ha] at h
    simp at h
  · rw [ha] at h
    simp only [Bool.and_eq_true, bne_iff_ne] at h
    exact ⟨s, rfl, h.1.2⟩

/-- A marker (`proof`) row holds a nonempty fingerprint string. -/
theorem hash_some_of_isProofEntry {t : TxRecord} (h : isProofEntry t = true) :
    ∃ s, t.hash = some s ∧ s ≠ "" := by
  unfold isProofEntry jsStrTruthy at h
  rcases ha : t.hash with _ | s
  · rw [ha] at h
    simp at h
  · rw [ha] at h
    simp only [Bool.and_eq_true, bne_iff_ne] at h
    exact ⟨s, rfl, h.2⟩

/-- The record built for a marker row, with its asset lookup spelled out. -/
theorem mkProofRecord_assetId (transactions : List TxRecord) (t : TxRecord) :
    (mkProofRecord (buildAssetByHash transactions) t).assetId =
      match lastMatchingAsset transactions (t.hash.getD "") with
      | some a => if a = 0 then none else some a
      | none => none := by
  unfold mkProofRecord
  rw [mapGet_buildAssetByHash]

/-- A qualifying `asa` row carries `some` nonzero asset id. -/
theorem assetId_some_of_isAsaEntry {t : TxRecord} (h : isAsaEntry t = true) :
    ∃ n, t.assetId = some n ∧ n ≠ 0 ∧ t.assetId.getD 0 = n := by
  have hpos := assetId_pos_of_isAsaEntry h
  rcases ha : t.assetId with _ | n
  · rw [ha] at hpos
    simp at hpos
  · rw [ha] at hpos
    simp only [Option.getD_some] at hpos
    exact ⟨n, rfl, hpos, rfl⟩

/-- C10: every reconstructed proof record's asset id is the asset id of the
last qualifying `asa` transaction (in input order) carrying the record's
fingerprint — later window entries overwrite earlier ones in the
fingerprint-to-asset lookup — and it is absent when no such entry exists. -/
theorem c10_last_asset_note_wins (transactions : List TxRecord) (i : Nat)
    (hi : i < (deriveProofsFromTransactions transactions).length) :
    ((deriveProofsFromTransactions transactions).get ⟨i, hi⟩).assetId =
      lastMatchingAsset transactions
        (((deriveProofsFromTransactions transactions).get ⟨i, hi⟩).hash) := by
  have hmem : (deriveProofsFromTransactions transactions).get ⟨i, hi⟩ ∈
      deriveProofsFromTransactions transactions := List.get_mem _ _ _
  unfold deriveProofsFromTransactions preSortRecords at hmem ⊢
  rw [mem_sortRoundDesc] at hmem
  rcases List.mem_map.mp hmem with ⟨t, _, hteq⟩
  rw [← hteq]
  have hhash : (mkProofRecord (buildAssetByHash transactions) t).hash = t.hash.getD "" := rfl
  rw [hhash, mkProofRecord_assetId]
  rcases hlast : lastMatchingAsset transactions (t.hash.getD "") with _ | a
  · rfl
  · have hne : a ≠ 0 := by
      unfold lastMatchingAsset at hlast
      rcases Option.map_eq_some'.mp hlast with ⟨t', hfind, hval⟩
      have hq := List.find?_some hfind
      simp only [Bool.and_eq_true] at hq
      have := assetId_pos_of_isAsaEntry hq.1
      rw [← hval]
      exact this
    simp [hne]

/-- C10 witness window: two `asa` rows with the same fingerprint (asset ids 7
and 9, in that order) and one `proof` row with that fingerprint. -/
def c10Txs : List TxRecord :=
  [⟨"A1", some 1, some 10, some "ff", some "asa", none, some 7⟩,
   ⟨"A2", some 2, some 20, some "ff", some "asa", none, some 9⟩,
   ⟨"P1", some 3, some 30, some "ff", some "proof", none, none⟩]

/-- C10 witness: in a concrete window with duplicate asset notes, the emitted
record carries the later (overwriting) asset id 9 — which is what
`lastMatchingAsset` picks. -/
theorem c10_last_asset_note_wins_witness :
    0 < (deriveProofsFromTransactions c10Txs).length
    ∧ ((deriveProofsFromTransactions c10Txs).get
        ⟨0, by decide⟩).assetId =
        lastMatchingAsset c10Txs
          (((deriveProofsFromTransactions c10Txs).get ⟨0, by decide⟩).hash) :=
  ⟨by decide, c10_last_asset_note_wins c10Txs 0 (by decide)⟩

/-- C8: in every transaction window, a marker (`proof`) row whose fingerprint
also appears on a qualifying asset (`asa`) row yields a reconstructed
ProofRecord carrying both the marker transaction id and an asset id taken from
a matching asset row; a marker row whose fingerprint matches no asset row
yields a ProofRecord with the asset id absent. -/
theorem c8_proof_asset_pairing (transactions : List TxRecord) (t : TxRecord)
    (hmem : t ∈ transactions) (hproof : isProofEntry t = true) :
    (∀ ta, ta ∈ transactions → isAsaEntry ta = true → ta.hash = t.hash →
      ∃ r, r ∈ deriveProofsFromTransactions transactions ∧ r.transactionId = t.id ∧
        r.hash = t.hash.getD "" ∧
        ∃ a, r.assetId = some a ∧
          ∃ tb, tb ∈ transactions ∧ isAsaEntry tb = true ∧ tb.hash = t.hash ∧
            tb.assetId = some a)
    ∧ ((∀ ta, ta ∈ transactions → isAsaEntry ta = true → ta.hash ≠ t.hash) →
      ∃ r, r ∈ deriveProofsFromTransactions transactions ∧ r.transactionId = t.id ∧
        r.hash = t.hash.getD "" ∧ r.assetId = none) := by
  have hrmem : mkProofRecord (buildAssetByHash transactions) t ∈
      deriveProofsFromTransactions transactions := by
    unfold deriveProofsFromTransactions preSortRecords
    rw [mem_sortRoundDesc]
    exact List.mem_map.mpr ⟨t, List.mem_filter.mpr ⟨hmem, hproof⟩, rfl⟩
  obtain ⟨st, hst, hstne⟩ := hash_some_of_isProofEntry hproof
  constructor
  · intro ta hta hasa hhasheq
    have hex : ∃ x ∈ transactions.reverse,
        (isAsaEntry x && x.hash.getD "" == t.hash.getD "") = true :=
      ⟨ta, List.mem_reverse.mpr hta, by simp [hasa, hhasheq]⟩
    have hsome : (transactions.reverse.find?
        (fun x => isAsaEntry x && x.hash.getD "" == t.hash.getD "")).isSome :=
      List.find?_isSome.mpr hex
    rcases hfind : transactions.reverse.find?
        (fun x => isAsaEntry x && x.hash.getD "" == t.hash.getD "") with _ | tb
    · rw [hfind] at hsome
      simp at hsome
    · have hq := List.find?_some hfind
      simp only [Bool.and_eq_true, beq_iff_eq] at hq
      have htbmem : tb ∈ transactions := List.mem_reverse.mp (List.mem_of_find?_eq_some hfind)
      obtain ⟨sb, hsb, hsbne⟩ := hash_some_of_isAsaEntry hq.1
      have htbhash : tb.hash = t.hash := by
        rw [hsb, hst]
        have := hq.2
        rw [hsb, hst] at this
        simp only [Option.getD_some] at this
        rw [this]
      obtain ⟨a, haeq, hane, hagetD⟩ := assetId_some_of_isAsaEntry hq.1
      refine ⟨mkProofRecord (buildAssetByHash transactions) t, hrmem, rfl, rfl, a, ?_,
        tb, htbmem, hq.1, htbhash, haeq⟩
      rw [mkProofRecord_assetId]
      unfold lastMatchingAsset
      rw [hfind]
      simp [hagetD, hane]
  · intro hno
    refine ⟨mkProofRecord (buildAssetByHash transactions) t, hrmem, rfl, rfl, ?_⟩
    rw [mkProofRecord_assetId]
    have hfind : transactions.reverse.find?
        (fun x => isAsaEntry x && x.hash.getD "" == t.hash.getD "") = none := by
      rw [List.find?_eq_none]
      intro x hx
      have hxmem : x ∈ transactions := List.mem_reverse.mp hx
      intro hq
      simp only [Bool.and_eq_true, beq_iff_eq] at hq
      obtain ⟨sx, hsx, hsxne⟩ := hash_some_of_isAsaEntry hq.1
      have hxhash : x.hash = t.hash := by
        rw [hsx, hst]
        have := hq.2
        rw [hsx, hst] at this
        simp only [Option.getD_some] at this
        rw [this]
      exact hno x hxmem hq.1 hxhash
    unfold lastMatchingAsset
    rw [hfind]
    rfl

/-- C8 witness window: a paired marker and asset row sharing fingerprint `aa`,
and an unpaired marker row with fingerprint `bb`. -/
def c8Txs : List TxRecord :=
  [⟨"P1", some 1, some 10, some "aa", some "proof", none, none⟩,
   ⟨"A1", some 2, some 20, some "aa", some "asa", none, some 7⟩,
   ⟨"P2", some 3, some 30, some "bb", some "proof", none, none⟩]

/-- C8 witness: instantiating the pairing theorem on the concrete window — the
paired marker obtains an asset id from its matching asset row. -/
theorem c8_proof_asset_pairing_witness :
    ((⟨"P1", some 1, some 10, some "aa", some "proof", none, none⟩ : TxRecord) ∈ c8Txs
      ∧ isProofEntry ⟨"P1", some 1, some 10, some "aa", some "proof", none, none⟩ = true
      ∧ (⟨"A1", some 2, some 20, some "aa", some "asa", none, some 7⟩ : TxRecord) ∈ c8Txs
      ∧ isAsaEntry ⟨"A1", some 2, some 20, some "aa", some "asa", none, some 7⟩ = true)
    ∧ (∃ r, r ∈ deriveProofsFromTransactions c8Txs ∧ r.transactionId = "P1" ∧
        r.hash = (some "aa").getD "" ∧
        ∃ a, r.assetId = some a ∧
          ∃ tb, tb ∈ c8Txs ∧ isAsaEntry tb = true ∧ tb.hash = some "aa" ∧
            tb.assetId = some a) :=
  ⟨⟨List.mem_cons_self _ _, by decide,
    List.mem_cons_of_mem _ (List.mem_cons_self _ _), by decide⟩,
   (c8_proof_asset_pairing c8Txs ⟨"P1", some 1, some 10, some "aa", some "proof", none, none⟩
      (List.mem_cons_self _ _) (by decide)).1
     ⟨"A1", some 2, some 20, some "aa", some "asa", none, some 7⟩
     (List.mem_cons_of_mem _ (List.mem_cons_self _ _)) (by decide) rfl⟩
